import Mathlib

/-!
Verification of the pipeline-behavior invocation chain of the
`nest-mediator` repository.

The TypeScript source works over `Promise<X>` values whose relevant effects
are: resolving with a value, rejecting with an error, and mutating a shared
append-only execution log (the spec's testable properties are stated in
terms of such a log).  We embed those effects as the monad
`M X := Log → Outcome X × Log` where the log survives failure (a JS array
mutated before a rejection keeps its entries) and a distinguished `div`
outcome marks a computation that exceeded its recursion-depth fuel — the
shallow-embedding artifact standing for the non-termination that the
untyped recursion of `invokeNext` could exhibit on a corrupted chain.

Behaviors (`IPipelineBehavior`) are arbitrary functions of the request, a
zero-argument continuation and the optional options value, exactly as in
`interfaces/pipeline-behavior.interface.ts`.  Chain nodes
(`IPipelineBehaviorHandler`) pair a behavior with a successor; the mutable
JS object reference in the `next` field is embedded as an index into the
invoker's `handlers` array, with `none` standing for `null`.
-/

/-- Outcome of one asynchronous computation: fulfilled, rejected, or
out of fuel (the embedding's marker for unbounded recursion). -/
inductive Outcome (X : Type u) where
  | ok (x : X)
  | err (e : String)
  | div

/-- Effect monad: a computation reads and extends the execution log and
produces an `Outcome`. -/
def M (X : Type u) := List String → Outcome X × List String

/-- Resolve with a value, leaving the log unchanged. -/
def M.pure (x : X) : M X := fun s => (Outcome.ok x, s)

/-- Sequencing: errors and divergence short-circuit, the log threads
through in every case (a rejected promise keeps the log entries made
before the rejection). -/
def M.bind (m : M X) (f : X → M Y) : M Y := fun s =>
  match m s with
  | (Outcome.ok x, s1) => f x s1
  | (Outcome.err e, s1) => (Outcome.err e, s1)
  | (Outcome.div, s1) => (Outcome.div, s1)

/-- Append one entry to the execution log. -/
def M.emit (entry : String) : M Unit := fun s => (Outcome.ok (), s ++ [entry])

/-- Reject with an error value. -/
def M.fail (e : String) : M X := fun s => (Outcome.err e, s)

/-- Fuel exhausted: the embedding marker for a recursion deeper than the
supplied bound. -/
def M.div : M X := fun s => (Outcome.div, s)

/-- `IPipelineBehavior` from `interfaces/pipeline-behavior.interface.ts`:
a single `handle(request, next, options)` capability. -/
structure IPipelineBehavior (Req Opt : Type) (X : Type u) where
  handle : Req → (Unit → M X) → Option Opt → M X

/-- `IPipelineBehaviorHandler` from
`interfaces/pipeline-behavior-handler.interface.ts`: a chain node pairing a
behavior with its successor.  The JS object reference in `next` is embedded
as an index into the invoker's `handlers` array (`none` = `null`). -/
structure IPipelineBehaviorHandler (Req Opt : Type) (X : Type u) where
  pipe : IPipelineBehavior Req Opt X
  next : Option Nat

/-- `PipelineBehaviorInvoker` from `pipeline.behavior.handler.ts`: the
`handlers` field is the array of chain nodes. -/
structure PipelineBehaviorInvoker (Req Opt : Type) (X : Type u) where
  handlers : List (IPipelineBehaviorHandler Req Opt X)

namespace PipelineBehaviorInvoker

variable {Req Opt : Type} {X : Type u}

/-- `addPipe` from `pipeline.behavior.handler.ts`: wrap the behavior in a
fresh node with `next := null`; if the chain is non-empty, point the
current last node's `next` at the fresh node; push the fresh node. -/
def addPipe (inv : PipelineBehaviorInvoker Req Opt X)
    (pipe : IPipelineBehavior Req Opt X) : PipelineBehaviorInvoker Req Opt X :=
  let handler : IPipelineBehaviorHandler Req Opt X := ⟨pipe, none⟩
  let n := inv.handlers.length
  let hs :=
    if n > 0 then
      match inv.handlers[n - 1]? with
      | some last => inv.handlers.set (n - 1) ⟨last.pipe, some n⟩
      | none => inv.handlers
    else inv.handlers
  ⟨hs ++ [handler]⟩

/-- The class constructor of `PipelineBehaviorInvoker`: start from an empty
`handlers` array and `addPipe` each supplied behavior in order. -/
def construct (pipes : List (IPipelineBehavior Req Opt X)) :
    PipelineBehaviorInvoker Req Opt X :=
  pipes.foldl addPipe ⟨[]⟩

/-- `invokeNext` from `pipeline.behavior.handler.ts`.  The guard
`if (!pipeHandler)` is the `none` branch (both `undefined` from an
out-of-range array read and `null` from a last node's successor flow into
it); otherwise the current node's behavior is invoked with a continuation
that recurses on the node's successor.  `fuel` bounds the recursion depth
of the embedding; a continuation invoked with no fuel left yields the
divergence marker. -/
def invokeNext (inv : PipelineBehaviorInvoker Req Opt X) (fuel : Nat)
    (request : Req) (pipeHandler : Option (IPipelineBehaviorHandler Req Opt X))
    (commandOrQueryHandler : Unit → M X) (options : Option Opt) : M X :=
  match pipeHandler with
  | none => commandOrQueryHandler ()
  | some h =>
    h.pipe.handle request
      (fun _ =>
        match fuel with
        | 0 => M.div
        | Nat.succ f =>
          inv.invokeNext f request
            (Option.bind h.next (fun i => inv.handlers[i]?))
            commandOrQueryHandler options)
      options

/-- `invoke` from `pipeline.behavior.handler.ts`: start `invokeNext` at
`handlers[0]` (which is `undefined`, i.e. `none`, for an empty chain).
The fuel `handlers.length + 1` covers the full recursion depth of one
pass over a well-formed chain; fuel-irrelevance above `handlers.length`
is proved below. -/
def invoke (inv : PipelineBehaviorInvoker Req Opt X) (request : Req)
    (commandOrQueryHandler : Unit → M X) (options : Option Opt) : M X :=
  inv.invokeNext (inv.handlers.length + 1) request inv.handlers[0]?
    commandOrQueryHandler options

end PipelineBehaviorInvoker

/-- Requests as classified by the facade.  `Command<X>` and `Query<X>` are
nominal classes; `instanceof Command` only looks at the class identity, so
the embedding carries a constructor tag and an opaque payload.  The
`other` constructor stands for a runtime value that is an instance of
neither class (TypeScript's static type does not exclude it). -/
inductive Request where
  | command (data : Nat)
  | query (data : Nat)
  | other (data : Nat)

/-- The `commandOrQuery instanceof Command` test of `mediator.ts`. -/
def Request.isCommand : Request → Bool
  | Request.command _ => true
  | _ => false

/-- Query-shaped by nominal class identity (`instanceof Query`); not
tested by the source, needed only to state claims about classification. -/
def Request.isQuery : Request → Bool
  | Request.query _ => true
  | _ => false

/-- `Mediator` from `mediator.ts` (the variant with the pipeline invoker):
the two buses are external collaborators, embedded as opaque functions
from a request to an effectful result. -/
structure Mediator (Opt : Type) (X : Type u) where
  commandBus : Request → M X
  queryBus : Request → M X
  pipelineBehaviorInvoker : PipelineBehaviorInvoker Request Opt X

/-- `Mediator.execute`: branch on `instanceof Command`, bind the matching
bus as the terminal operation, and forward request, terminal and options
to the invoker. -/
def Mediator.execute (m : Mediator Opt X) (commandOrQuery : Request)
    (options : Option Opt) : M X :=
  if commandOrQuery.isCommand then
    m.pipelineBehaviorInvoker.invoke commandOrQuery
      (fun _ => m.commandBus commandOrQuery) options
  else
    m.pipelineBehaviorInvoker.invoke commandOrQuery
      (fun _ => m.queryBus commandOrQuery) options

/-- Modelled from the spec, section 9: the reference semantics of one pass
over the chain as a right-to-left fold producing nested continuations —
"if there is no current node, invoke and return the terminal operation's
outcome; otherwise invoke the current node's behavior, supplying it a
zero-argument continuation that recurses with the node's successor".
The pointer-chasing `invokeNext` is proved to refine this fold. -/
def chainSem (pipes : List (IPipelineBehavior Req Opt X)) (request : Req)
    (terminal : Unit → M X) (options : Option Opt) : M X :=
  match pipes with
  | [] => terminal ()
  | p :: rest => p.handle request (fun _ => chainSem rest request terminal options) options

/-- Shape of a well-formed invoker holding exactly the behaviors `pipes`
in order: the node array has one node per behavior, node `i` holds
behavior `i`, every node but the last points at the node after it, and
the last node's successor is the `null` sentinel.  Successors only ever
point forward, so the chain is acyclic. -/
def ChainSpec (inv : PipelineBehaviorInvoker Req Opt X)
    (pipes : List (IPipelineBehavior Req Opt X)) : Prop :=
  inv.handlers.length = pipes.length ∧
  (∀ i : Nat, (inv.handlers[i]?).map IPipelineBehaviorHandler.pipe = pipes[i]?) ∧
  (∀ i : Nat, ∀ h, inv.handlers[i]? = some h →
    h.next = if i + 1 < pipes.length then some (i + 1) else none)

/-- Transparent logging behavior: log the first entry, delegate to the
continuation exactly once, log the second entry, return the
continuation's value unchanged. -/
def normalB (b a : String) : IPipelineBehavior Req Opt X :=
  ⟨fun _ next _ =>
    M.bind (M.emit b) (fun _ =>
      M.bind (next ()) (fun x =>
        M.bind (M.emit a) (fun _ => M.pure x)))⟩

/-- Options-observing behavior: log the image of the received options
value under `f`, then delegate to the continuation. -/
def recorderB (f : Option Opt → String) : IPipelineBehavior Req Opt X :=
  ⟨fun _ next o => M.bind (M.emit (f o)) (fun _ => next ())⟩

/-- Short-circuiting behavior: ignore the continuation entirely and
produce `body` as its own result. -/
def constB (body : M X) : IPipelineBehavior Req Opt X :=
  ⟨fun _ _ _ => body⟩

/-- Behavior whose after-logic fails: delegate to the continuation once,
then reject with `e`. -/
def failAfterB (e : String) : IPipelineBehavior Req Opt X :=
  ⟨fun _ next _ => M.bind (next ()) (fun _ => M.fail e)⟩

/-- Terminal operation that logs one entry and resolves with `v`. -/
def logTerminal (t : String) (v : X) : Unit → M X :=
  fun _ => M.bind (M.emit t) (fun _ => M.pure v)

namespace PipelineBehaviorInvoker

variable {Req Opt : Type} {X : Type u}

theorem chainSpec_nil :
    ChainSpec (⟨[]⟩ : PipelineBehaviorInvoker Req Opt X) [] := by
  refine ⟨rfl, ?_, ?_⟩
  · intro i; simp
  · intro i h hh; simp at hh

theorem chainSpec_addPipe {inv : PipelineBehaviorInvoker Req Opt X}
    {ps : List (IPipelineBehavior Req Opt X)} (hs : ChainSpec inv ps)
    (p : IPipelineBehavior Req Opt X) :
    ChainSpec (inv.addPipe p) (ps ++ [p]) := by
  obtain ⟨hlen, hpipe, hnext⟩ := hs
  rcases Nat.eq_zero_or_pos inv.handlers.length with hn | hn
  · have hempty : inv.handlers = [] := List.length_eq_zero.mp hn
    have hps : ps = [] := List.length_eq_zero.mp (hlen ▸ hn)
    subst hps
    refine ⟨?_, ?_, ?_⟩
    · simp [addPipe, hempty]
    · intro i
      match i with
      | 0 => simp [addPipe, hempty]
      | Nat.succ j => simp [addPipe, hempty]
    · intro i h hh
      match i with
      | 0 =>
        simp [addPipe, hempty] at hh
        simp [addPipe, hempty, ← hh]
      | Nat.succ j => simp [addPipe, hempty] at hh
  · have hlt : inv.handlers.length - 1 < inv.handlers.length :=
      Nat.sub_lt hn Nat.one_pos
    have hget : inv.handlers[inv.handlers.length - 1]? =
        some inv.handlers[inv.handlers.length - 1] :=
      List.getElem?_eq_getElem hlt
    have haddPipe : (inv.addPipe p).handlers =
        inv.handlers.set (inv.handlers.length - 1)
          ⟨(inv.handlers[inv.handlers.length - 1]).pipe,
            some inv.handlers.length⟩ ++ [⟨p, none⟩] := by
      simp only [addPipe, hget, if_pos hn]
    have hlen2 : (inv.addPipe p).handlers.length = inv.handlers.length + 1 := by
      simp [haddPipe]
    refine ⟨?_, ?_, ?_⟩
    · simp [hlen2, hlen]
    · intro i
      rcases lt_trichotomy i inv.handlers.length with hi | hi | hi
      · rw [haddPipe,
          List.getElem?_append_left (by simpa using hi),
          List.getElem?_append_left (by simpa [hlen] using hi)]
        rcases eq_or_ne i (inv.handlers.length - 1) with he | he
        · subst he
          rw [List.getElem?_set_self hlt]
          have := hpipe (inv.handlers.length - 1)
          rw [hget] at this
          simpa using this
        · rw [List.getElem?_set_ne (Ne.symm he)]
          exact hpipe i
      · subst hi
        rw [haddPipe, List.getElem?_append_right (by simp), List.length_set,
          Nat.sub_self]
        rw [List.getElem?_append_right (by omega), hlen, Nat.sub_self]
        simp
      · rw [haddPipe, List.getElem?_eq_none (by simp; omega),
          List.getElem?_eq_none (by simp [hlen]; omega)]
        simp
    · intro i h hh
      rcases lt_trichotomy i inv.handlers.length with hi | hi | hi
      · rw [haddPipe, List.getElem?_append_left (by simpa using hi)] at hh
        rcases eq_or_ne i (inv.handlers.length - 1) with he | he
        · subst he
          rw [List.getElem?_set_self hlt] at hh
          have hnx : h.next = some inv.handlers.length := by
            rw [← Option.some_inj.mp hh]
          rw [hnx]
          have : inv.handlers.length - 1 + 1 = inv.handlers.length :=
            Nat.succ_pred_eq_of_pos hn
          rw [this, if_pos (by simp [hlen])]
        · rw [List.getElem?_set_ne (Ne.symm he)] at hh
          have := hnext i h hh
          rw [this]
          have hi2 : i < inv.handlers.length - 1 := by omega
          rw [if_pos (by omega), if_pos (by simp [← hlen]; omega)]
      · subst hi
        rw [haddPipe, List.getElem?_append_right (by simp), List.length_set,
          Nat.sub_self] at hh
        simp only [List.getElem?_cons_zero, Option.some_inj] at hh
        rw [← hh, if_neg (by simp [hlen])]
      · rw [haddPipe, List.getElem?_eq_none (by simp; omega)] at hh
        simp at hh

theorem construct_chainSpec (pipes : List (IPipelineBehavior Req Opt X)) :
    ChainSpec (construct pipes) pipes := by
  induction pipes using List.reverseRecOn with
  | nil => exact chainSpec_nil
  | append_singleton ps p ih =>
    have hstep : construct (ps ++ [p]) = (construct ps).addPipe p := by
      simp [construct]
    rw [hstep]
    exact chainSpec_addPipe ih p

theorem invokeNext_eq_chainSem {inv : PipelineBehaviorInvoker Req Opt X}
    {pipes : List (IPipelineBehavior Req Opt X)} (hspec : ChainSpec inv pipes)
    (request : Req) (terminal : Unit → M X) (options : Option Opt) :
    ∀ fuel i, pipes.length ≤ fuel + i →
      inv.invokeNext fuel request inv.handlers[i]? terminal options =
        chainSem (pipes.drop i) request terminal options := by
  obtain ⟨hlen, hpipe, hnext⟩ := hspec
  intro fuel
  induction fuel with
  | zero =>
    intro i hi
    rw [List.getElem?_eq_none (by omega), List.drop_eq_nil_of_le (by omega)]
    rfl
  | succ f ih =>
    intro i hi
    by_cases hlt : i < pipes.length
    · have hhl : i < inv.handlers.length := by omega
      rw [List.getElem?_eq_getElem hhl]
      have hp : (inv.handlers[i]).pipe = pipes[i] := by
        have := hpipe i
        rw [List.getElem?_eq_getElem hhl, List.getElem?_eq_getElem hlt] at this
        simpa using this
      have hx : (inv.handlers[i]).next =
          if i + 1 < pipes.length then some (i + 1) else none :=
        hnext i _ (List.getElem?_eq_getElem hhl)
      have hcont : Option.bind (inv.handlers[i]).next
          (fun j => inv.handlers[j]?) = inv.handlers[i + 1]? := by
        rw [hx]
        by_cases h2 : i + 1 < pipes.length
        · rw [if_pos h2]; rfl
        · rw [if_neg h2, List.getElem?_eq_none (by omega)]; rfl
      rw [List.drop_eq_getElem_cons hlt]
      show (inv.handlers[i]).pipe.handle request
          (fun _ => inv.invokeNext f request
            (Option.bind (inv.handlers[i]).next (fun j => inv.handlers[j]?))
            terminal options) options =
        (pipes[i]).handle request
          (fun _ => chainSem (pipes.drop (i + 1)) request terminal options)
          options
      rw [hp, hcont]
      have harg : (fun _ : Unit => inv.invokeNext f request inv.handlers[i + 1]?
          terminal options) =
          (fun _ : Unit => chainSem (pipes.drop (i + 1)) request terminal options) := by
        funext u
        exact ih (i + 1) (by omega)
      rw [harg]
    · rw [List.getElem?_eq_none (by omega), List.drop_eq_nil_of_le (by omega)]
      rfl

theorem construct_invoke_eq_chainSem
    (pipes : List (IPipelineBehavior Req Opt X)) (request : Req)
    (terminal : Unit → M X) (options : Option Opt) :
    (construct pipes).invoke request terminal options =
      chainSem pipes request terminal options := by
  have hspec := construct_chainSpec pipes
  have hlen : (construct pipes).handlers.length = pipes.length := hspec.1
  have := invokeNext_eq_chainSem hspec request terminal options
    ((construct pipes).handlers.length + 1) 0 (by omega)
  simpa [invoke] using this

end PipelineBehaviorInvoker

section ChainEval

variable {Req Opt : Type} {X : Type u} {Y : Type v}

/-- Unfolding a bind at a concrete log. -/
theorem M.bind_apply (m : M X) (f : X → M Y) (s : List String) :
    M.bind m f s =
      match m s with
      | (Outcome.ok x, s1) => f x s1
      | (Outcome.err e, s1) => (Outcome.err e, s1)
      | (Outcome.div, s1) => (Outcome.div, s1) := rfl

/-- Unfolding a bind whose first step is a log append. -/
theorem M.bind_emit (entry : String) (f : Unit → M X) (s : List String) :
    M.bind (M.emit entry) f s = f () (s ++ [entry]) := rfl

/-- Splitting the fold semantics at an append: the suffix becomes the
terminal operation of the prefix. -/
theorem chainSem_append (ps qs : List (IPipelineBehavior Req Opt X))
    (request : Req) (terminal : Unit → M X) (options : Option Opt) :
    chainSem (ps ++ qs) request terminal options =
      chainSem ps request (fun _ => chainSem qs request terminal options) options := by
  induction ps with
  | nil => rfl
  | cons p ps ih =>
    show p.handle request (fun _ => chainSem (ps ++ qs) request terminal options) options =
      p.handle request
        (fun _ => chainSem ps request (fun _ => chainSem qs request terminal options) options)
        options
    rw [ih]

/-- Running a stack of transparent logging behaviors around an arbitrary
body: the before-entries are appended in order, then the body runs, and
the after-entries are appended in reverse order only when the body
resolves; a rejected or diverging body propagates with the log it left. -/
theorem chainSem_normal_around (l : List (String × String)) (body : M X)
    (request : Req) (options : Option Opt) (s : List String) :
    chainSem (l.map (fun ba => normalB ba.1 ba.2)) request (fun _ => body) options s =
      match body (s ++ l.map Prod.fst) with
      | (Outcome.ok v, s1) => (Outcome.ok v, s1 ++ (l.map Prod.snd).reverse)
      | (Outcome.err e, s1) => (Outcome.err e, s1)
      | (Outcome.div, s1) => (Outcome.div, s1) := by
  induction l generalizing s with
  | nil =>
    simp only [List.map_nil, List.append_nil, chainSem, List.reverse_nil]
    rcases hb : body s with ⟨o, s1⟩
    cases o <;> simp
  | cons hd tl ih =>
    show M.bind (M.emit hd.1)
        (fun _ => M.bind
          (chainSem (tl.map (fun ba => normalB ba.1 ba.2)) request (fun _ => body) options)
          (fun x => M.bind (M.emit hd.2) (fun _ => M.pure x))) s = _
    rw [M.bind_emit, M.bind_apply, ih (s ++ [hd.1])]
    simp only [List.map_cons]
    rw [show s ++ hd.1 :: List.map Prod.fst tl = s ++ [hd.1] ++ List.map Prod.fst tl by simp]
    rcases hb : body (s ++ [hd.1] ++ tl.map Prod.fst) with ⟨o, s1⟩
    cases o <;> simp [M.bind_emit, M.pure]

/-- Full onion pass: transparent logging behaviors around a logging
terminal give exactly the spec's log — before-entries in registration
order, the terminal entry, then after-entries in reverse order — and the
terminal's value. -/
theorem chainSem_normal (l : List (String × String)) (t : String) (v : X)
    (request : Req) (options : Option Opt) (s : List String) :
    chainSem (l.map (fun ba => normalB ba.1 ba.2)) request (logTerminal t v) options s =
      (Outcome.ok v, s ++ l.map Prod.fst ++ [t] ++ (l.map Prod.snd).reverse) := by
  have hterm : logTerminal t v = fun _ : Unit => logTerminal t v () := rfl
  rw [hterm, chainSem_normal_around]
  simp [logTerminal, M.bind, M.emit, M.pure]

/-- Running a stack of options-recording behaviors: each appends the image
of the one options value it received, then the terminal runs on the
extended log. -/
theorem chainSem_recorder (f : Option Opt → String) (k : Nat)
    (request : Req) (terminal : Unit → M X) (options : Option Opt) (s : List String) :
    chainSem (List.replicate k (recorderB f)) request terminal options s =
      terminal () (s ++ List.replicate k (f options)) := by
  induction k generalizing s with
  | zero => simp [chainSem]
  | succ n ih =>
    show M.bind (M.emit (f options))
        (fun _ => chainSem (List.replicate n (recorderB f)) request terminal options) s =
      terminal () (s ++ List.replicate (n + 1) (f options))
    rw [M.bind_emit]
    show chainSem (List.replicate n (recorderB f)) request terminal options
        (s ++ [f options]) =
      terminal () (s ++ List.replicate (n + 1) (f options))
    rw [ih (s ++ [f options])]
    congr 1
    simp [List.replicate_succ]

end ChainEval

section Claims

variable {Req Opt : Type} {X : Type u}

/-- Claim C1: for every ordered behavior list B1..Bn — each logging a
before-entry, calling `next` exactly once, logging an after-entry and
returning the continuation's value — and a logging terminal T, one
`invoke` call appends the before-entries in registration order B1..Bn,
then the terminal entry, then the after-entries in exact reverse order
Bn..B1 (the first-registered behavior's after-entry last), and resolves
with the terminal's value. -/
theorem C1_onion_ordering (l : List (String × String)) (t : String) (v : X)
    (request : Req) (options : Option Opt) (s : List String) :
    (PipelineBehaviorInvoker.construct
        (l.map (fun ba => normalB ba.1 ba.2))).invoke request
      (logTerminal t v) options s =
      (Outcome.ok v, s ++ l.map Prod.fst ++ [t] ++ (l.map Prod.snd).reverse) := by
  rw [PipelineBehaviorInvoker.construct_invoke_eq_chainSem]
  exact chainSem_normal l t v request options s

/-- Claim C2: if behavior Bk never calls its continuation (its handle is
the constant computation `body`), then no later behavior (`rest` is
universally quantified and absent from the result) and not the terminal
ever execute, and the overall outcome of `invoke` is exactly `body`'s
outcome — same value or same failure — with only the enclosing
transparent behaviors' entries around it in the log. -/
theorem C2_short_circuit (pre : List (String × String)) (body : M X)
    (rest : List (IPipelineBehavior Req Opt X)) (request : Req)
    (terminal : Unit → M X) (options : Option Opt) (s : List String) :
    (PipelineBehaviorInvoker.construct
        (pre.map (fun ba => normalB ba.1 ba.2) ++ constB body :: rest)).invoke
      request terminal options s =
      match body (s ++ pre.map Prod.fst) with
      | (Outcome.ok v, s1) => (Outcome.ok v, s1 ++ (pre.map Prod.snd).reverse)
      | (Outcome.err e, s1) => (Outcome.err e, s1)
      | (Outcome.div, s1) => (Outcome.div, s1) := by
  rw [PipelineBehaviorInvoker.construct_invoke_eq_chainSem, chainSem_append]
  have hshort : chainSem (constB body :: rest) request terminal options = body := rfl
  rw [hshort]
  exact chainSem_normal_around pre body request options s

/-- Claim C3: an invoker constructed from the empty behavior list returns
exactly the terminal operation's computation — same outcome, same log —
for every request, terminal and options. -/
theorem C3_empty_chain (request : Req) (terminal : Unit → M X)
    (options : Option Opt) :
    (PipelineBehaviorInvoker.construct
        ([] : List (IPipelineBehavior Req Opt X))).invoke request terminal
      options = terminal () := by
  rw [PipelineBehaviorInvoker.construct_invoke_eq_chainSem]
  rfl

/-- Claim C4: a Command-shaped request is forwarded to `invoke` with the
Command Bus bound as terminal, and a Query-shaped request with the Query
Bus bound as terminal; in both cases the same request and options are
forwarded. -/
theorem C4_classification (m : Mediator Opt X) (r : Request)
    (options : Option Opt) :
    (r.isCommand = true →
      m.execute r options =
        m.pipelineBehaviorInvoker.invoke r (fun _ => m.commandBus r) options) ∧
    (r.isQuery = true →
      m.execute r options =
        m.pipelineBehaviorInvoker.invoke r (fun _ => m.queryBus r) options) := by
  constructor
  · intro h
    simp [Mediator.execute, h]
  · intro h
    have hc : r.isCommand = false := by
      cases r <;> simp_all [Request.isCommand, Request.isQuery]
    simp [Mediator.execute, hc]

theorem C4_classification_witness :
    (Request.isCommand (Request.command 5) = true ∧
      Mediator.execute
          (⟨fun _ => M.pure 0, fun _ => M.pure 1,
            PipelineBehaviorInvoker.construct []⟩ : Mediator Unit Nat)
          (Request.command 5) none =
        (PipelineBehaviorInvoker.construct
            ([] : List (IPipelineBehavior Request Unit Nat))).invoke
          (Request.command 5) (fun _ => M.pure 0) none) ∧
    (Request.isQuery (Request.query 5) = true ∧
      Mediator.execute
          (⟨fun _ => M.pure 0, fun _ => M.pure 1,
            PipelineBehaviorInvoker.construct []⟩ : Mediator Unit Nat)
          (Request.query 5) none =
        (PipelineBehaviorInvoker.construct
            ([] : List (IPipelineBehavior Request Unit Nat))).invoke
          (Request.query 5) (fun _ => M.pure 1) none) :=
  ⟨⟨rfl, (C4_classification _ _ _).1 rfl⟩, ⟨rfl, (C4_classification _ _ _).2 rfl⟩⟩

/-- Claim C5: failures propagate verbatim with no catching, wrapping or
retrying.  Part one: a failing terminal (Command Bus) propagates its
error through facade and invoker past a chain of transparent behaviors,
whose after-logic is skipped.  Part two: a behavior failing instead of
calling `next` makes its error the overall outcome; later behaviors and
the terminal never run.  Part three: a behavior failing after `next`
lets the terminal run and then propagates its own error outward,
skipping the enclosing after-logic. -/
theorem C5_failure_propagation :
    (∀ (l : List (String × String)) (e : String) (qb : Request → M Nat)
        (d : Nat) (options : Option Unit) (s : List String),
      Mediator.execute
          (⟨fun _ => M.fail e, qb,
            PipelineBehaviorInvoker.construct
              (l.map (fun ba => normalB ba.1 ba.2))⟩ : Mediator Unit Nat)
          (Request.command d) options s =
        (Outcome.err e, s ++ l.map Prod.fst)) ∧
    (∀ (pre : List (String × String)) (e : String)
        (rest : List (IPipelineBehavior Req Opt X)) (request : Req)
        (terminal : Unit → M X) (options : Option Opt) (s : List String),
      (PipelineBehaviorInvoker.construct
          (pre.map (fun ba => normalB ba.1 ba.2) ++
            constB (M.fail e) :: rest)).invoke request terminal options s =
        (Outcome.err e, s ++ pre.map Prod.fst)) ∧
    (∀ (pre : List (String × String)) (e t : String) (v : X) (request : Req)
        (options : Option Opt) (s : List String),
      (PipelineBehaviorInvoker.construct
          (pre.map (fun ba => normalB ba.1 ba.2) ++ [failAfterB e])).invoke
        request (logTerminal t v) options s =
        (Outcome.err e, s ++ pre.map Prod.fst ++ [t])) := by
  refine ⟨?_, ?_, ?_⟩
  · intro l e qb d options s
    show (PipelineBehaviorInvoker.construct
        (l.map (fun ba => normalB ba.1 ba.2))).invoke (Request.command d)
      (fun _ => M.fail e) options s = _
    rw [PipelineBehaviorInvoker.construct_invoke_eq_chainSem]
    have := chainSem_normal_around l (M.fail e : M Nat) (Request.command d)
      options s
    simpa [M.fail] using this
  · intro pre e rest request terminal options s
    rw [PipelineBehaviorInvoker.construct_invoke_eq_chainSem, chainSem_append]
    have hshort : chainSem (constB (M.fail e) :: rest) request terminal options =
        M.fail e := rfl
    rw [hshort]
    have := chainSem_normal_around pre (M.fail e : M X) request options s
    simpa [M.fail] using this
  · intro pre e t v request options s
    rw [PipelineBehaviorInvoker.construct_invoke_eq_chainSem, chainSem_append]
    have hfail : chainSem [failAfterB e] request (logTerminal t v) options =
        fun s1 => ((Outcome.err e : Outcome X), s1 ++ [t]) := rfl
    rw [hfail]
    have := chainSem_normal_around pre
      (fun s1 => ((Outcome.err e : Outcome X), s1 ++ [t])) request options s
    simpa using this

/-- Claim C6: one `invoke` call hands the very same options value —
whatever the type `Opt` and whether present or the explicit `none`
marker — to every behavior in the chain, unchanged (each of `k`
recording behaviors logs the image of exactly the caller's `options`),
and the facade forwards the caller's options into the invoker the same
way. -/
theorem C6_options_propagation :
    (∀ (f : Option Opt → String) (k : Nat) (request : Req)
        (terminal : Unit → M X) (options : Option Opt) (s : List String),
      (PipelineBehaviorInvoker.construct
          (List.replicate k (recorderB f))).invoke request terminal options s =
        terminal () (s ++ List.replicate k (f options))) ∧
    (∀ (f : Option Opt → String) (k : Nat) (cb qb : Request → M X) (d : Nat)
        (options : Option Opt) (s : List String),
      Mediator.execute
          (⟨cb, qb,
            PipelineBehaviorInvoker.construct
              (List.replicate k (recorderB f))⟩ : Mediator Opt X)
          (Request.query d) options s =
        qb (Request.query d) (s ++ List.replicate k (f options))) := by
  constructor
  · intro f k request terminal options s
    rw [PipelineBehaviorInvoker.construct_invoke_eq_chainSem]
    exact chainSem_recorder f k request terminal options s
  · intro f k cb qb d options s
    show (PipelineBehaviorInvoker.construct
        (List.replicate k (recorderB f))).invoke (Request.query d)
      (fun _ => qb (Request.query d)) options s = _
    rw [PipelineBehaviorInvoker.construct_invoke_eq_chainSem]
    exact chainSem_recorder f k (Request.query d)
      (fun _ => qb (Request.query d)) options s

/-- Claim C7 counterexample: a request that is neither Command-shaped nor
Query-shaped does not make the facade raise any error — it is silently
routed to the Query Bus, whose successful value becomes the overall
result. -/
theorem C7_counterexample :
    Mediator.execute
        (⟨fun _ => M.fail "commandBus", fun _ => M.pure 42,
          PipelineBehaviorInvoker.construct []⟩ : Mediator Unit Nat)
        (Request.other 0) none [] = (Outcome.ok 42, []) := rfl

/-- Claim C7 as amended: a request that is neither Command-shaped nor
Query-shaped is not rejected; `execute` takes the else branch and
delegates it to the Query Bus terminal exactly like a Query, raising no
error of its own. -/
theorem C7_amended_silent_routing (m : Mediator Opt X) (d : Nat)
    (options : Option Opt) :
    m.execute (Request.other d) options =
      m.pipelineBehaviorInvoker.invoke (Request.other d)
        (fun _ => m.queryBus (Request.other d)) options := by
  simp [Mediator.execute, Request.isCommand]

/-- Claim C8: the chain-node invariant.  `construct` establishes
`ChainSpec` (nodes hold the behaviors in exact registration order, each
node but the last points at its immediate successor, the last node's
successor is the `none` sentinel); `addPipe` preserves it, appending one
node at the tail; and successors only point forward, so the chain has no
cycles. -/
theorem C8_chain_invariant (pipes : List (IPipelineBehavior Req Opt X))
    (inv : PipelineBehaviorInvoker Req Opt X)
    (ps : List (IPipelineBehavior Req Opt X)) (p : IPipelineBehavior Req Opt X)
    (hinv : ChainSpec inv ps) :
    ChainSpec (PipelineBehaviorInvoker.construct pipes) pipes ∧
    ChainSpec (inv.addPipe p) (ps ++ [p]) ∧
    (∀ (i : Nat) (h : IPipelineBehaviorHandler Req Opt X) (j : Nat),
      (PipelineBehaviorInvoker.construct pipes).handlers[i]? = some h →
      h.next = some j → i < j) := by
  refine ⟨PipelineBehaviorInvoker.construct_chainSpec pipes,
    PipelineBehaviorInvoker.chainSpec_addPipe hinv p, ?_⟩
  intro i h j hi hj
  have hnx := (PipelineBehaviorInvoker.construct_chainSpec pipes).2.2 i h hi
  rw [hnx] at hj
  by_cases hc : i + 1 < pipes.length
  · rw [if_pos hc] at hj
    injection hj with hj
    omega
  · rw [if_neg hc] at hj
    simp at hj

theorem C8_chain_invariant_witness :
    ChainSpec (⟨[]⟩ : PipelineBehaviorInvoker Request Unit Nat) [] ∧
      (ChainSpec
          (PipelineBehaviorInvoker.construct
            [(constB (M.pure 7) : IPipelineBehavior Request Unit Nat)])
          [constB (M.pure 7)] ∧
        ChainSpec
          ((⟨[]⟩ : PipelineBehaviorInvoker Request Unit Nat).addPipe
            (constB (M.pure 7))) ([] ++ [constB (M.pure 7)]) ∧
        (∀ (i : Nat) (h : IPipelineBehaviorHandler Request Unit Nat) (j : Nat),
          (PipelineBehaviorInvoker.construct
              [(constB (M.pure 7) : IPipelineBehavior Request Unit Nat)]).handlers[i]? =
            some h → h.next = some j → i < j)) :=
  ⟨PipelineBehaviorInvoker.chainSpec_nil,
    C8_chain_invariant _ _ _ _ PipelineBehaviorInvoker.chainSpec_nil⟩

/-- Claim C9: every request value that is not Command-shaped — the
Query-shaped ones and equally the neither-shaped ones — takes the else
branch of `execute` and is delegated to the Query Bus terminal; the
facade has no dedicated error branch. -/
theorem C9_noncommand_routes_to_query_bus (m : Mediator Opt X) (r : Request)
    (options : Option Opt) (h : r.isCommand = false) :
    m.execute r options =
      m.pipelineBehaviorInvoker.invoke r (fun _ => m.queryBus r) options := by
  simp [Mediator.execute, h]

theorem C9_noncommand_routes_to_query_bus_witness :
    Request.isCommand (Request.other 3) = false ∧
      Mediator.execute
          (⟨fun _ => M.pure 0, fun _ => M.pure 1,
            PipelineBehaviorInvoker.construct []⟩ : Mediator Unit Nat)
          (Request.other 3) none =
        (PipelineBehaviorInvoker.construct
            ([] : List (IPipelineBehavior Request Unit Nat))).invoke
          (Request.other 3) (fun _ => M.pure 1) none :=
  ⟨rfl, C9_noncommand_routes_to_query_bus _ _ _ rfl⟩

/-- Claim C10: on a chain built by `construct`, one pass of the
`invokeNext` recursion needs recursion depth at most the number of
behaviors plus one: any fuel of at least the chain length makes
`invokeNext`, started at `handlers[0]` as `invoke` does, equal to the
total structural fold `chainSem` — in particular the divergence marker
is never produced, the `none` successor of the last node is handled by
the no-current-node guard, and the continuation handed to the last
behavior invokes the terminal operation. -/
theorem C10_bounded_recursion (pipes : List (IPipelineBehavior Req Opt X))
    (fuel : Nat) (hfuel : pipes.length ≤ fuel) (request : Req)
    (terminal : Unit → M X) (options : Option Opt) :
    (PipelineBehaviorInvoker.construct pipes).invokeNext fuel request
        ((PipelineBehaviorInvoker.construct pipes).handlers[0]?) terminal
        options =
      chainSem pipes request terminal options := by
  have hspec := PipelineBehaviorInvoker.construct_chainSpec pipes
  have := PipelineBehaviorInvoker.invokeNext_eq_chainSem hspec request terminal
    options fuel 0 (by omega)
  simpa using this

theorem C10_bounded_recursion_witness :
    List.length [(constB (M.pure 7) : IPipelineBehavior Request Unit Nat)] ≤ 1 ∧
      (PipelineBehaviorInvoker.construct
          [(constB (M.pure 7) : IPipelineBehavior Request Unit Nat)]).invokeNext
          1 (Request.query 0)
          ((PipelineBehaviorInvoker.construct
            [(constB (M.pure 7) : IPipelineBehavior Request Unit Nat)]).handlers[0]?)
          (fun _ => M.pure 0) none =
        chainSem [(constB (M.pure 7) : IPipelineBehavior Request Unit Nat)]
          (Request.query 0) (fun _ => M.pure 0) none :=
  ⟨by simp, C10_bounded_recursion _ 1 (by simp) _ _ _⟩

end Claims
